import Mathlib

/-!
Verification of the function-store subsystem of the ADK agent kit.

The subject program manages a single Python source file (global_tools.py) that
holds top-level function definitions.  Every endpoint parses the whole file
into an AST (ast.parse), mutates the tree, and serializes it back
(ast.unparse).  This development embeds the statement-level structure of that
code: Python statements become the Stmt inductive below, the module body
becomes a List Stmt, the parse result of a submitted code string becomes an
Option (List Stmt) (none models a SyntaxError), and each endpoint of main.py
becomes a Lean function over those values.  Comments are not part of Python's
AST, so they never occur in a Stmt; the unparse rendering of a node is carried
as the src field.
-/

/-- Python statement at the granularity the endpoints of main.py inspect:
a (possibly async) function definition carries its name, its canonical
ast.unparse rendering, and the statements nested in its body; every other
statement (imports, assignments, class or if blocks, ...) carries its
rendering and whatever statements are nested inside it.  The nested lists
are what ast.walk descends into. -/
inductive Stmt where
  | funcDef (isAsync : Bool) (name : String) (src : String) (nested : List Stmt)
  | other (src : String) (nested : List Stmt)

/-- Serialization of one statement, as produced by ast.unparse on that node. -/
def Stmt.src : Stmt → String
  | .funcDef _ _ s _ => s
  | .other s _ => s

/-- Child statements of a node, the ones ast.walk will visit next. -/
def Stmt.children : Stmt → List Stmt
  | .funcDef _ _ _ b => b
  | .other _ b => b

/-- Mirrors isinstance(node, (ast.FunctionDef, ast.AsyncFunctionDef)). -/
def Stmt.isFuncDef : Stmt → Bool
  | .funcDef _ _ _ _ => true
  | .other _ _ => false

/-- Name of a node when it is a function definition. -/
def Stmt.funcName? : Stmt → Option String
  | .funcDef _ n _ _ => some n
  | .other _ _ => none

/-- Mirrors isinstance(node, (ast.FunctionDef, ast.AsyncFunctionDef)) and
node.name == funcName, the test used by find_function_node and the delete
endpoint (main.py lines 125 and 345). -/
def Stmt.isFuncDefNamed (s : Stmt) (n : String) : Bool :=
  match s with
  | .funcDef _ m _ _ => m == n
  | .other _ _ => false

/-- Total number of nodes in a statement list, counting nested statements;
used as the termination measure of the breadth-first walk. -/
def sizeL : List Stmt → Nat
  | [] => 0
  | (.funcDef _ _ _ b) :: rest => 1 + sizeL b + sizeL rest
  | (.other _ b) :: rest => 1 + sizeL b + sizeL rest

theorem sizeL_append (a b : List Stmt) : sizeL (a ++ b) = sizeL a + sizeL b := by
  induction a with
  | nil => simp [sizeL]
  | cons s rest ih => cases s <;> simp [sizeL, ih] <;> omega

theorem sizeL_children_lt (s : Stmt) (rest : List Stmt) :
    sizeL (rest ++ s.children) < sizeL (s :: rest) := by
  cases s <;> simp [sizeL, Stmt.children, sizeL_append] <;> omega

/-- Breadth-first traversal of the statement forest, in the visit order of
Python's ast.walk (a FIFO queue seeded with the module body: all statements of
one level are yielded before any nested statement).  Non-statement child nodes
(argument lists, expressions, ...) are omitted because no function definition
can occur inside them. -/
def walkBFS (q : List Stmt) : List Stmt :=
  match q with
  | [] => []
  | s :: rest => s :: walkBFS (rest ++ s.children)
termination_by sizeL q
decreasing_by exact sizeL_children_lt s rest

theorem walkBFS_nil : walkBFS [] = [] := by simp [walkBFS]

theorem walkBFS_cons (s : Stmt) (rest : List Stmt) :
    walkBFS (s :: rest) = s :: walkBFS (rest ++ s.children) := by
  rw [walkBFS]

/-- Embeds find_function_node (main.py lines 122-127): scan every node that
ast.walk reaches, nested ones included, and return the first function
definition carrying the requested name. -/
def find_function_node (tree : List Stmt) (funcName : String) : Option Stmt :=
  (walkBFS tree).find? (fun node => node.isFuncDefNamed funcName)

/-- Embeds get_function_code (main.py lines 129-134): the ast.unparse
rendering of the found node, if any. -/
def get_function_code (tree : List Stmt) (funcName : String) : Option String :=
  (find_function_node tree funcName).map Stmt.src

/-- Failure kinds of the tool endpoints.  alreadyExists is the 409 of create;
invalidDefinition the 400 raised when the submitted code has a syntax error,
an empty body, or a first statement that is not a function definition;
nameMismatch the 400 raised when the declared name differs from the addressed
name; notFound the 404; pathBodyMismatch the 400 of update when the path and
body names disagree; internalError the 500 of update's defensive for-else
branch. -/
inductive ToolError where
  | alreadyExists
  | invalidDefinition
  | nameMismatch
  | notFound
  | pathBodyMismatch
  | internalError
  deriving DecidableEq

/-- Embeds create_tool_function (main.py lines 243-268).  The state is the
parsed module body; parsedCode is the result of ast.parse on the submitted
code (none models a SyntaxError).  Note the code inspects only body[0] of the
parsed submission: trailing statements are silently dropped. -/
def create_tool_function (tree : List Stmt) (name : String)
    (parsedCode : Option (List Stmt)) : Except ToolError (List Stmt) :=
  if (find_function_node tree name).isSome then
    Except.error ToolError.alreadyExists
  else
    match parsedCode with
    | none => Except.error ToolError.invalidDefinition
    | some [] => Except.error ToolError.invalidDefinition
    | some (Stmt.other _ _ :: _) => Except.error ToolError.invalidDefinition
    | some (Stmt.funcDef a m s b :: _) =>
        if m == name then Except.ok (tree ++ [Stmt.funcDef a m s b])
        else Except.error ToolError.nameMismatch

/-- Embeds list_tool_functions (main.py lines 271-281): names of every
function definition node found by ast.walk, nested ones included. -/
def list_tool_functions (tree : List Stmt) : List String :=
  (walkBFS tree).filterMap Stmt.funcName?

/-- Embeds get_tool_function (main.py lines 283-292): returns the pair of the
requested name and the unparsed source of the matching node. -/
def get_tool_function (tree : List Stmt) (functionName : String) :
    Except ToolError (String × String) :=
  match get_function_code tree functionName with
  | none => Except.error ToolError.notFound
  | some code => Except.ok (functionName, code)

/-- Embeds the replacement loop of update_tool_function (main.py lines
318-327): walk tree.body, replace the first top-level function definition
with the addressed name; none models the defensive for-else branch where no
top-level index is found. -/
def replaceFirstTopLevel (body : List Stmt) (functionName : String)
    (newNode : Stmt) : Option (List Stmt) :=
  match body with
  | [] => none
  | node :: rest =>
    if node.isFuncDefNamed functionName then some (newNode :: rest)
    else (replaceFirstTopLevel rest functionName newNode).map (node :: ·)

/-- Embeds update_tool_function (main.py lines 294-334).  functionName is the
path parameter, bodyName the name field of the request body.  As in create,
only body[0] of the parsed submission is inspected and stored. -/
def update_tool_function (tree : List Stmt) (functionName bodyName : String)
    (parsedCode : Option (List Stmt)) : Except ToolError (List Stmt) :=
  if functionName ≠ bodyName then Except.error ToolError.pathBodyMismatch
  else if (find_function_node tree functionName).isNone then
    Except.error ToolError.notFound
  else
    match parsedCode with
    | none => Except.error ToolError.invalidDefinition
    | some [] => Except.error ToolError.invalidDefinition
    | some (Stmt.other _ _ :: _) => Except.error ToolError.invalidDefinition
    | some (Stmt.funcDef a m s b :: _) =>
        if m == functionName then
          match replaceFirstTopLevel tree functionName (Stmt.funcDef a m s b) with
          | some newBody => Except.ok newBody
          | none => Except.error ToolError.internalError
        else Except.error ToolError.nameMismatch

/-- Embeds delete_tool_function (main.py lines 337-353): filter the top-level
body only (no ast.walk here), keeping every statement that is not a function
definition with the addressed name, and report 404 when nothing was removed. -/
def delete_tool_function (tree : List Stmt) (functionName : String) :
    Except ToolError (List Stmt) :=
  let newBody := tree.filter (fun node => !(node.isFuncDefNamed functionName))
  if newBody.length = tree.length then Except.error ToolError.notFound
  else Except.ok newBody

/-- Serialization of a module body, as ast.unparse renders a Module: the
statement renderings in sequence, each statement after the first preceded by
a newline, with one extra newline — a blank line — in front of every function
definition (the unparser's maybe_newline plus fill before a def); the first
statement gets no separator even when it is a definition. -/
def unparseModule (body : List Stmt) : String :=
  match body with
  | [] => ""
  | first :: rest =>
      first.src ++ String.join (rest.map (fun st =>
        (if st.isFuncDef then "\n\n" else "\n") ++ st.src))

/-- Check used by write_global_tools_ast, modelling the Python expression
new_source_code.endswith of a single newline at the character level: the last
character of the string is a newline. -/
def endsWithNewline (s : String) : Bool :=
  s.data.getLast? == some '\n'

/-- Embeds write_global_tools_ast (main.py lines 110-120): the new file
content is ast.unparse of the tree with a trailing newline appended when
missing. -/
def write_global_tools_ast (body : List Stmt) : String :=
  let newSourceCode := unparseModule body
  if endsWithNewline newSourceCode then newSourceCode else newSourceCode ++ "\n"

/-- Exact bytes written at startup when global_tools.py is absent (main.py
lines 18-22): a comment line, two import statements and a blank line. -/
def initialFileContent : String :=
  "# Global tool functions managed by the API\nimport datetime\nfrom zoneinfo import ZoneInfo\n\n"

/-- Parse result of initialFileContent.  Python's ast.parse represents the
two import statements and drops the comment and the blank line, which are not
part of the AST. -/
def initialTree : List Stmt :=
  [Stmt.other "import datetime" [], Stmt.other "from zoneinfo import ZoneInfo" []]

/-- File-level transition of the create endpoint: main.py writes the file
(line 263) only on the success path; every raise happens before any write, so
on failure the backing file keeps its previous bytes. -/
def createTransition (fileContent : String) (tree : List Stmt) (name : String)
    (parsedCode : Option (List Stmt)) : String :=
  match create_tool_function tree name parsedCode with
  | Except.ok newTree => write_global_tools_ast newTree
  | Except.error _ => fileContent

/-- File-level transition of the update endpoint (write only on success,
main.py line 329). -/
def updateTransition (fileContent : String) (tree : List Stmt)
    (functionName bodyName : String) (parsedCode : Option (List Stmt)) : String :=
  match update_tool_function tree functionName bodyName parsedCode with
  | Except.ok newTree => write_global_tools_ast newTree
  | Except.error _ => fileContent

/-- File-level transition of the delete endpoint (write only on success,
main.py line 352). -/
def deleteTransition (fileContent : String) (tree : List Stmt)
    (functionName : String) : String :=
  match delete_tool_function tree functionName with
  | Except.ok newTree => write_global_tools_ast newTree
  | Except.error _ => fileContent

/-- Names of the top-level function declarations of a module body, in order.
This is the spec-side notion of the stored names; the code itself never
computes this list (its list endpoint walks nested statements too). -/
def topLevelNames (tree : List Stmt) : List String :=
  tree.filterMap Stmt.funcName?

/-- Spec-side invariant: at most one top-level function declaration per name. -/
def uniqueTopLevelNames (tree : List Stmt) : Prop :=
  (topLevelNames tree).Nodup

/-- Depth-first enumeration of every statement in the forest, nested ones
included; order-insensitive companion of walkBFS used to state membership
facts by structural recursion. -/
def forestStmts : List Stmt → List Stmt
  | [] => []
  | (Stmt.funcDef a n s b) :: rest =>
      Stmt.funcDef a n s b :: (forestStmts b ++ forestStmts rest)
  | (Stmt.other s b) :: rest =>
      Stmt.other s b :: (forestStmts b ++ forestStmts rest)

/-- Some function definition named n occurs anywhere in the forest, at any
nesting depth. -/
def stmtsHaveFunc (n : String) (q : List Stmt) : Bool :=
  (forestStmts q).any (fun s => s.isFuncDefNamed n)

/-- Leading run of non-declaration statements of the module body: the
preamble region of the backing file (import statements and the like). -/
def modulePreamble (tree : List Stmt) : List Stmt :=
  tree.takeWhile (fun s => !s.isFuncDef)

/-- ASCII decimal digit, the meaning of str.isdigit on the ASCII-only
characters that survive the regex substitution. -/
def isAsciiDigit (c : Char) : Bool :=
  '0' ≤ c && c ≤ '9'

/-- ASCII letter. -/
def isAsciiAlpha (c : Char) : Bool :=
  ('a' ≤ c && c ≤ 'z') || ('A' ≤ c && c ≤ 'Z')

/-- Mirrors the character class of the regex sub in sanitize_agent_name
(main.py line 35): the characters the substitution keeps — ASCII letters,
ASCII digits and the underscore. -/
def isWordChar (c : Char) : Bool :=
  isAsciiAlpha c || isAsciiDigit c || c == '_'

/-- Mirrors name.strip applied with underscore (main.py line 38): remove
leading and trailing underscores. -/
def stripUnderscores (cs : List Char) : List Char :=
  ((cs.dropWhile (fun c => c == '_')).reverse.dropWhile (fun c => c == '_')).reverse

/-- Mirrors str.isidentifier restricted to ASCII strings: nonempty, first
character a letter or underscore, remaining characters letters, digits or
underscores.  On the ASCII-only output of the sanitization steps this
coincides exactly with Python's check. -/
def isPyIdentifier (cs : List Char) : Bool :=
  match cs with
  | [] => false
  | c :: rest =>
      (isAsciiAlpha c || c == '_') &&
      rest.all (fun d => isAsciiAlpha d || isAsciiDigit d || d == '_')

/-- Failure kinds of sanitize_agent_name: the ValueError for a name that is
empty after sanitization (main.py line 46) and the defensive ValueError when
the final isidentifier check fails (main.py line 51). -/
inductive SanitizeError where
  | emptyAfterSanitization
  | notAnIdentifier
  deriving DecidableEq

/-- Embeds sanitize_agent_name (main.py lines 26-53): replace spaces and
hyphens with underscores, drop every character outside [a-zA-Z0-9_], strip
leading and trailing underscores, put an underscore in front when the result
starts with a digit, then fail on emptiness and run the final defensive
identifier check. -/
def sanitize_agent_name (name : String) : Except SanitizeError String :=
  let s1 := name.data.map (fun c => if c == ' ' then '_' else if c == '-' then '_' else c)
  let s2 := s1.filter isWordChar
  let s3 := stripUnderscores s2
  let s4 := match s3 with
    | [] => ([] : List Char)
    | c :: rest => if isAsciiDigit c then '_' :: c :: rest else c :: rest
  if s4.isEmpty then Except.error SanitizeError.emptyAfterSanitization
  else if isPyIdentifier s4 then Except.ok (String.mk s4)
  else Except.error SanitizeError.notAnIdentifier

/-- Embeds AgentConfig.validate_and_sanitize_name (main.py lines 71-87): the
validator simply returns sanitize_agent_name of the submitted value,
re-raising its ValueError. -/
def validate_and_sanitize_name (v : String) : Except SanitizeError String :=
  sanitize_agent_name v

theorem forestStmts_cons (s : Stmt) (rest : List Stmt) :
    forestStmts (s :: rest) = s :: (forestStmts s.children ++ forestStmts rest) := by
  cases s <;> simp [forestStmts, Stmt.children]

theorem forestStmts_append (a b : List Stmt) :
    forestStmts (a ++ b) = forestStmts a ++ forestStmts b := by
  induction a with
  | nil => simp [forestStmts]
  | cons s rest ih =>
      rw [List.cons_append, forestStmts_cons, forestStmts_cons, ih]
      simp

theorem mem_forestStmts_of_mem {x : Stmt} {q : List Stmt} (h : x ∈ q) :
    x ∈ forestStmts q := by
  induction q with
  | nil => simp at h
  | cons s rest ih =>
      rw [forestStmts_cons]
      rcases List.mem_cons.mp h with h | h
      · exact h ▸ List.mem_cons_self _ _
      · exact List.mem_cons_of_mem _ (List.mem_append_right _ (ih h))

theorem mem_walkBFS_iff {x : Stmt} (q : List Stmt) :
    x ∈ walkBFS q ↔ x ∈ forestStmts q := by
  induction q using walkBFS.induct with
  | case1 => simp [walkBFS_nil, forestStmts]
  | case2 s rest ih =>
      rw [walkBFS_cons, forestStmts_cons]
      simp only [List.mem_cons, ih, forestStmts_append, List.mem_append]
      tauto

theorem funcName?_eq_some_iff (x : Stmt) (n : String) :
    x.funcName? = some n ↔ x.isFuncDefNamed n = true := by
  cases x <;> simp [Stmt.funcName?, Stmt.isFuncDefNamed]

theorem stmtsHaveFunc_iff (n : String) (q : List Stmt) :
    stmtsHaveFunc n q = true ↔ ∃ x ∈ forestStmts q, x.isFuncDefNamed n = true := by
  simp [stmtsHaveFunc, List.any_eq_true]

theorem find_function_node_isSome_iff (tree : List Stmt) (n : String) :
    (find_function_node tree n).isSome = true ↔ stmtsHaveFunc n tree = true := by
  simp only [find_function_node, List.find?_isSome, stmtsHaveFunc_iff, mem_walkBFS_iff]

theorem find_function_node_eq_none_iff (tree : List Stmt) (n : String) :
    find_function_node tree n = none ↔ stmtsHaveFunc n tree = false := by
  rw [← Option.not_isSome_iff_eq_none]
  rw [show ((find_function_node tree n).isSome = true ↔ stmtsHaveFunc n tree = true)
    from find_function_node_isSome_iff tree n]
  simp

theorem mem_list_tool_functions_iff_aux (tree : List Stmt) (m : String) :
    m ∈ list_tool_functions tree ↔ stmtsHaveFunc m tree = true := by
  simp only [list_tool_functions, List.mem_filterMap, stmtsHaveFunc_iff,
    mem_walkBFS_iff, funcName?_eq_some_iff]

theorem walkBFS_find_at (p : Stmt → Bool) (A : List Stmt) (node : Stmt)
    (hA : ∀ s ∈ A, p s = false) (hnode : p node = true) :
    ∀ B : List Stmt, (walkBFS (A ++ node :: B)).find? p = some node := by
  induction A with
  | nil =>
      intro B
      rw [List.nil_append, walkBFS_cons]
      exact List.find?_cons_of_pos _ hnode
  | cons s A' ih =>
      intro B
      rw [List.cons_append, walkBFS_cons,
        List.find?_cons_of_neg _ (by simp [hA s (List.mem_cons_self s A')])]
      have hq : (A' ++ node :: B) ++ s.children = A' ++ node :: (B ++ s.children) := by
        simp
      rw [hq]
      exact ih (fun t ht => hA t (List.mem_cons_of_mem s ht)) (B ++ s.children)

theorem find_function_node_at (A B : List Stmt) (a : Bool) (n s : String)
    (b : List Stmt) (hA : ∀ x ∈ A, x.isFuncDefNamed n = false) :
    find_function_node (A ++ Stmt.funcDef a n s b :: B) n =
      some (Stmt.funcDef a n s b) := by
  rw [find_function_node]
  exact walkBFS_find_at _ A _ hA (by simp [Stmt.isFuncDefNamed]) B

theorem get_tool_function_at (A B : List Stmt) (a : Bool) (n s : String)
    (b : List Stmt) (hA : ∀ x ∈ A, x.isFuncDefNamed n = false) :
    get_tool_function (A ++ Stmt.funcDef a n s b :: B) n = Except.ok (n, s) := by
  rw [get_tool_function, get_function_code, find_function_node_at A B a n s b hA]
  rfl

theorem stmtsHaveFunc_of_topLevel {tree : List Stmt} {x : Stmt} {n : String}
    (hx : x ∈ tree) (hn : x.isFuncDefNamed n = true) :
    stmtsHaveFunc n tree = true := by
  exact (stmtsHaveFunc_iff n tree).mpr ⟨x, mem_forestStmts_of_mem hx, hn⟩

theorem not_mem_topLevelNames {tree : List Stmt} {n : String}
    (h : stmtsHaveFunc n tree = false) : n ∉ topLevelNames tree := by
  intro hmem
  rcases List.mem_filterMap.mp hmem with ⟨x, hx, hname⟩
  have htrue := stmtsHaveFunc_of_topLevel hx ((funcName?_eq_some_iff x n).mp hname)
  rw [h] at htrue
  cases htrue

theorem replaceFirstTopLevel_of_decomp (pre post : List Stmt) (old newNode : Stmt)
    (n : String) (hold : old.isFuncDefNamed n = true)
    (hpre : ∀ x ∈ pre, x.isFuncDefNamed n = false) :
    replaceFirstTopLevel (pre ++ old :: post) n newNode =
      some (pre ++ newNode :: post) := by
  induction pre with
  | nil => simp [replaceFirstTopLevel, hold]
  | cons s rest ih =>
      rw [List.cons_append]
      simp [replaceFirstTopLevel, hpre s (List.mem_cons_self s rest),
        ih (fun t ht => hpre t (List.mem_cons_of_mem s ht))]

theorem replaceFirstTopLevel_isSome_iff (tree : List Stmt) (n : String)
    (newNode : Stmt) :
    (replaceFirstTopLevel tree n newNode).isSome = true ↔
      ∃ x ∈ tree, x.isFuncDefNamed n = true := by
  induction tree with
  | nil => simp [replaceFirstTopLevel]
  | cons s rest ih =>
      rw [replaceFirstTopLevel]
      by_cases hs : s.isFuncDefNamed n = true
      · simp [hs]
      · simp only [Bool.not_eq_true] at hs
        simp [hs, ih]

theorem replaceFirstTopLevel_names (tree newBody : List Stmt) (n : String)
    (a : Bool) (s : String) (b : List Stmt)
    (h : replaceFirstTopLevel tree n (Stmt.funcDef a n s b) = some newBody) :
    topLevelNames newBody = topLevelNames tree := by
  induction tree generalizing newBody with
  | nil => simp [replaceFirstTopLevel] at h
  | cons x rest ih =>
      rw [replaceFirstTopLevel] at h
      by_cases hx : x.isFuncDefNamed n = true
      · rw [if_pos hx] at h
        cases h
        cases x with
        | funcDef a' m' s' b' =>
            have hm : m' = n := by
              simpa [Stmt.isFuncDefNamed] using hx
            subst hm
            simp [topLevelNames, Stmt.funcName?]
        | other s' b' => simp [Stmt.isFuncDefNamed] at hx
      · rw [if_neg hx] at h
        rcases Option.map_eq_some'.mp h with ⟨t, ht, rfl⟩
        have hrec : List.filterMap Stmt.funcName? t = List.filterMap Stmt.funcName? rest :=
          ih t ht
        cases x <;> simp [topLevelNames, Stmt.funcName?, hrec]

theorem topLevel_not_named_of_find_none {tree : List Stmt} {n : String}
    (hfind : find_function_node tree n = none) :
    ∀ x ∈ tree, x.isFuncDefNamed n = false := by
  intro x hx
  have hnone := (find_function_node_eq_none_iff tree n).mp hfind
  cases hxx : x.isFuncDefNamed n
  · rfl
  · have := stmtsHaveFunc_of_topLevel hx hxx
    rw [hnone] at this
    cases this

theorem find_none_of_not_haveFunc {tree : List Stmt} {n : String}
    (h : stmtsHaveFunc n tree = false) : find_function_node tree n = none :=
  (find_function_node_eq_none_iff tree n).mpr h

theorem takeWhile_append_mid (p : Stmt → Bool) (A B : List Stmt) (x : Stmt)
    (hx : p x = false) :
    (A ++ x :: B).takeWhile p = A.takeWhile p := by
  induction A with
  | nil => simp [List.takeWhile, hx]
  | cons s rest ih =>
      rw [List.cons_append]
      cases hs : p s <;> simp [List.takeWhile_cons, hs, ih]

/-- Sample declaration: def add(a, b) returning a sum. -/
def addNode : Stmt :=
  Stmt.funcDef false "add" "def add(a, b):\n    return a + b" []

/-- Sample declaration: the updated def add(a, b) returning a difference. -/
def addSubNode : Stmt :=
  Stmt.funcDef false "add" "def add(a, b):\n    return a - b" []

/-- Sample declaration named f. -/
def fNode : Stmt :=
  Stmt.funcDef false "f" "def f():\n    pass" []

/-- Sample declaration named g. -/
def gNode : Stmt :=
  Stmt.funcDef false "g" "def g():\n    pass" []

/-- Sample declaration named host whose body nests a definition of inner.
The src fields hold each node's own ast.unparse rendering: the outer one has
the blank line the unparser puts before a nested def, and the nested one is
re-rendered standalone at four-space indentation. -/
def hostNode : Stmt :=
  Stmt.funcDef false "host" "def host():\n\n    def inner():\n        pass"
    [Stmt.funcDef false "inner" "def inner():\n    pass" []]

/-- Sample top-level declaration named dup. -/
def dupTopNode : Stmt :=
  Stmt.funcDef false "dup" "def dup():\n    return 0" []

/-- Sample declaration named keeper whose body nests a second definition of
dup.  As in hostNode the src fields are the nodes' own ast.unparse
renderings: the outer one with the unparser's blank line before the nested
def, the nested one re-rendered standalone at four-space indentation — the
text read(dup) would return for it. -/
def keeperNode : Stmt :=
  Stmt.funcDef false "keeper" "def keeper():\n\n    def dup():\n        return 1"
    [Stmt.funcDef false "dup" "def dup():\n    return 1" []]

/-- C1: for every definition source text that parses to exactly one function
declaration, named n, with n not yet stored anywhere in the backing file,
create(n, D) succeeds by appending that declaration, and read(n) then returns
the serialization of exactly that parsed declaration.  In the embedding a
declaration is identified with its parsed node and the src field is its
canonical ast.unparse rendering, so returning the src of the very node D
parsed to is the embedding's statement of semantic equivalence: the returned
text parses back to the same logical declaration even though its formatting
may differ from D. -/
theorem create_then_read_roundtrip (tree : List Stmt) (n : String) (a : Bool)
    (s : String) (b : List Stmt) (hfind : find_function_node tree n = none) :
    create_tool_function tree n (some [Stmt.funcDef a n s b]) =
      Except.ok (tree ++ [Stmt.funcDef a n s b]) ∧
    get_tool_function (tree ++ [Stmt.funcDef a n s b]) n = Except.ok (n, s) := by
  constructor
  · have hnone : (find_function_node tree n).isSome = false := by
      rw [hfind]; rfl
    simp [create_tool_function, hnone]
  · have hA := topLevel_not_named_of_find_none hfind
    simpa using get_tool_function_at tree [] a n s b hA

/-- Witness for C1 at a concrete input: storing def add into the freshly
initialized file and reading it back. -/
theorem create_then_read_roundtrip_witness :
    create_tool_function initialTree "add"
        (some [Stmt.funcDef false "add" "def add(a, b):\n    return a + b" []]) =
      Except.ok (initialTree ++
        [Stmt.funcDef false "add" "def add(a, b):\n    return a + b" []]) ∧
    get_tool_function (initialTree ++
        [Stmt.funcDef false "add" "def add(a, b):\n    return a + b" []]) "add" =
      Except.ok ("add", "def add(a, b):\n    return a + b") :=
  create_then_read_roundtrip initialTree "add" false
    "def add(a, b):\n    return a + b" []
    (by simp [find_function_node, initialTree, walkBFS_cons, walkBFS_nil,
      Stmt.children, Stmt.isFuncDefNamed, List.find?])

/-- C2, amended: list() returns the names of all function definitions that
ast.walk reaches, so a name is listed exactly when some function declaration
with that name occurs anywhere in the backing file, at any nesting depth —
not only at top level. -/
theorem mem_list_tool_functions_iff (tree : List Stmt) (m : String) :
    m ∈ list_tool_functions tree ↔ stmtsHaveFunc m tree = true :=
  mem_list_tool_functions_iff_aux tree m

/-- C2 counterexample: after creating on the initial store a function host
whose body nests a definition of inner, list() contains the name inner even
though no top-level declaration has that name — refuting the claim that a
nested function definition never appears in the result. -/
theorem list_returns_nested_name :
    create_tool_function initialTree "host" (some [hostNode]) =
      Except.ok (initialTree ++ [hostNode]) ∧
    "inner" ∈ list_tool_functions (initialTree ++ [hostNode]) ∧
    (∀ x ∈ initialTree ++ [hostNode], x.isFuncDefNamed "inner" = false) := by
  refine ⟨?_, ?_, ?_⟩
  · simp [create_tool_function, find_function_node, initialTree, hostNode,
      walkBFS_cons, walkBFS_nil, Stmt.children, Stmt.isFuncDefNamed, List.find?]
  · simp [list_tool_functions, initialTree, hostNode, walkBFS_cons, walkBFS_nil,
      Stmt.children, Stmt.funcName?]
  · decide

theorem haveFunc_false_of_find_isSome_false {tree : List Stmt} {n : String}
    (h : (find_function_node tree n).isSome = false) :
    stmtsHaveFunc n tree = false := by
  cases hv : stmtsHaveFunc n tree
  · rfl
  · have hx := (find_function_node_isSome_iff tree n).mpr hv
    rw [h] at hx
    cases hx

theorem find_isNone_false_of_haveFunc {tree : List Stmt} {n : String}
    (h : stmtsHaveFunc n tree = true) :
    (find_function_node tree n).isNone = false := by
  cases hf : find_function_node tree n
  · have hx := (find_function_node_eq_none_iff tree n).mp hf
    rw [h] at hx
    cases hx
  · rfl

theorem create_ok_inversion (tree : List Stmt) (n : String)
    (parsedCode : Option (List Stmt)) (t' : List Stmt)
    (h : create_tool_function tree n parsedCode = Except.ok t') :
    (find_function_node tree n).isSome = false ∧
    ∃ a s b rest, parsedCode = some (Stmt.funcDef a n s b :: rest) ∧
      t' = tree ++ [Stmt.funcDef a n s b] := by
  by_cases hS : (find_function_node tree n).isSome = true
  · simp [create_tool_function, hS] at h
  · have hS' : (find_function_node tree n).isSome = false := by
      simpa using hS
    refine ⟨hS', ?_⟩
    rcases parsedCode with _ | body
    · simp [create_tool_function, hS'] at h
    · rcases body with _ | ⟨head, rest⟩
      · simp [create_tool_function, hS'] at h
      · cases head with
        | funcDef a m s b =>
            by_cases hm : (m == n) = true
            · have hmn : m = n := by simpa using hm
              subst hmn
              simp [create_tool_function, hS', hm] at h
              exact ⟨a, s, b, rest, rfl, h.symm⟩
            · have hm' : (m == n) = false := by simpa using hm
              simp [create_tool_function, hS', hm'] at h
        | other os oc => simp [create_tool_function, hS'] at h

theorem update_ok_inversion (tree : List Stmt) (functionName bodyName : String)
    (parsedCode : Option (List Stmt)) (t' : List Stmt)
    (h : update_tool_function tree functionName bodyName parsedCode = Except.ok t') :
    functionName = bodyName ∧
    (find_function_node tree functionName).isNone = false ∧
    ∃ a s b rest, parsedCode = some (Stmt.funcDef a functionName s b :: rest) ∧
      replaceFirstTopLevel tree functionName (Stmt.funcDef a functionName s b) =
        some t' := by
  by_cases hb : functionName = bodyName
  · subst hb
    by_cases hN : (find_function_node tree functionName).isNone = true
    · simp [update_tool_function, hN] at h
    · have hN' : (find_function_node tree functionName).isNone = false := by
        cases hv : (find_function_node tree functionName).isNone
        · rfl
        · exact absurd hv hN
      refine ⟨rfl, hN', ?_⟩
      rcases parsedCode with _ | body
      · simp [update_tool_function, hN'] at h
      · rcases body with _ | ⟨head, rest⟩
        · simp [update_tool_function, hN'] at h
        · cases head with
          | funcDef a m s b =>
              by_cases hm : (m == functionName) = true
              · have hmn : m = functionName := by simpa using hm
                subst hmn
                cases hrep : replaceFirstTopLevel tree m (Stmt.funcDef a m s b) with
                | none => simp [update_tool_function, hN', hrep] at h
                | some newBody =>
                    simp [update_tool_function, hN', hrep] at h
                    exact ⟨a, s, b, rest, rfl, by rw [hrep, h]⟩
              · have hm' : (m == functionName) = false := by simpa using hm
                simp [update_tool_function, hN', hm'] at h
          | other os oc => simp [update_tool_function, hN'] at h
  · simp [update_tool_function, hb] at h

theorem delete_ok_inversion (tree : List Stmt) (n : String) (t' : List Stmt)
    (h : delete_tool_function tree n = Except.ok t') :
    t' = tree.filter (fun node => !(node.isFuncDefNamed n)) ∧
    (tree.filter (fun node => !(node.isFuncDefNamed n))).length ≠ tree.length := by
  by_cases hlen :
      (tree.filter (fun node => !(node.isFuncDefNamed n))).length = tree.length
  · simp [delete_tool_function, hlen] at h
  · simp [delete_tool_function, hlen] at h
    exact ⟨h.symm, hlen⟩

theorem replaceFirstTopLevel_decomp (tree : List Stmt) (n : String)
    (newNode : Stmt) (t' : List Stmt)
    (h : replaceFirstTopLevel tree n newNode = some t') :
    ∃ pre old post, tree = pre ++ old :: post ∧ old.isFuncDefNamed n = true ∧
      (∀ x ∈ pre, x.isFuncDefNamed n = false) ∧ t' = pre ++ newNode :: post := by
  induction tree generalizing t' with
  | nil => simp [replaceFirstTopLevel] at h
  | cons x rest ih =>
      rw [replaceFirstTopLevel] at h
      by_cases hx : x.isFuncDefNamed n = true
      · rw [if_pos hx] at h
        cases h
        exact ⟨[], x, rest, rfl, hx, by simp, rfl⟩
      · rw [if_neg hx] at h
        rcases Option.map_eq_some'.mp h with ⟨t, ht, rfl⟩
        rcases ih t ht with ⟨pre, old, post, hdec, hold, hpre, hres⟩
        refine ⟨x :: pre, old, post, by rw [hdec]; rfl, hold, ?_, by rw [hres]; rfl⟩
        intro y hy
        rcases List.mem_cons.mp hy with hy | hy
        · subst hy
          cases hxx : y.isFuncDefNamed n
          · rfl
          · exact absurd hxx hx
        · exact hpre y hy

theorem error_keeps_file_create (content : String) (tree : List Stmt)
    (n : String) (parsedCode : Option (List Stmt)) (e : ToolError)
    (h : create_tool_function tree n parsedCode = Except.error e) :
    createTransition content tree n parsedCode = content := by
  simp [createTransition, h]

theorem error_keeps_file_update (content : String) (tree : List Stmt)
    (functionName bodyName : String) (parsedCode : Option (List Stmt))
    (e : ToolError)
    (h : update_tool_function tree functionName bodyName parsedCode =
      Except.error e) :
    updateTransition content tree functionName bodyName parsedCode = content := by
  simp [updateTransition, h]

/-- C3 counterexample: source parsing to two function declarations is not
rejected with InvalidDefinition — create on the initial store succeeds,
storing the first declaration and silently dropping the second, because the
endpoint inspects only body[0] of the parsed submission (main.py line 255). -/
theorem create_accepts_two_declarations :
    create_tool_function initialTree "f" (some [fNode, gNode]) =
      Except.ok (initialTree ++ [fNode]) ∧
    stmtsHaveFunc "g" (initialTree ++ [fNode]) = false := by
  constructor
  · simp [create_tool_function, find_function_node, initialTree, fNode, gNode,
      walkBFS_cons, walkBFS_nil, Stmt.children, Stmt.isFuncDefNamed, List.find?]
  · simp [stmtsHaveFunc, forestStmts, initialTree, fNode, Stmt.isFuncDefNamed]

/-- C3, amended: submitted source that fails to parse, parses to zero
statements, or whose first statement is not a function definition makes both
create and update fail with InvalidDefinition without mutating the backing
file; but source parsing to two or more declarations is not rejected as such:
when its first statement is a function named n, the call succeeds and stores
only that first declaration. -/
theorem invalid_definition_behaviour (tree : List Stmt) (n content os : String)
    (oc rest : List Stmt) (a : Bool) (s : String) (b : List Stmt) :
    (find_function_node tree n = none →
      create_tool_function tree n none =
        Except.error ToolError.invalidDefinition ∧
      create_tool_function tree n (some []) =
        Except.error ToolError.invalidDefinition ∧
      create_tool_function tree n (some (Stmt.other os oc :: rest)) =
        Except.error ToolError.invalidDefinition ∧
      createTransition content tree n (some []) = content ∧
      create_tool_function tree n (some (Stmt.funcDef a n s b :: rest)) =
        Except.ok (tree ++ [Stmt.funcDef a n s b])) ∧
    ((find_function_node tree n).isNone = false →
      update_tool_function tree n n none =
        Except.error ToolError.invalidDefinition ∧
      update_tool_function tree n n (some []) =
        Except.error ToolError.invalidDefinition ∧
      update_tool_function tree n n (some (Stmt.other os oc :: rest)) =
        Except.error ToolError.invalidDefinition ∧
      updateTransition content tree n n (some []) = content) := by
  constructor
  · intro hfind
    have hS : (find_function_node tree n).isSome = false := by rw [hfind]; rfl
    have h2 : create_tool_function tree n (some []) =
        Except.error ToolError.invalidDefinition := by
      simp [create_tool_function, hS]
    refine ⟨by simp [create_tool_function, hS], h2,
      by simp [create_tool_function, hS],
      error_keeps_file_create content tree n (some []) _ h2,
      by simp [create_tool_function, hS]⟩
  · intro hN
    have h2 : update_tool_function tree n n (some []) =
        Except.error ToolError.invalidDefinition := by
      simp [update_tool_function, hN]
    refine ⟨by simp [update_tool_function, hN], h2,
      by simp [update_tool_function, hN],
      error_keeps_file_update content tree n n (some []) _ h2⟩

/-- Witness for the amended C3 at concrete inputs: empty submissions are
rejected by both endpoints. -/
theorem invalid_definition_behaviour_witness :
    create_tool_function initialTree "f" (some []) =
      Except.error ToolError.invalidDefinition ∧
    update_tool_function [fNode] "f" "f" (some []) =
      Except.error ToolError.invalidDefinition := by
  refine ⟨((invalid_definition_behaviour initialTree "f" "c" "x" [] [] false
    "s" []).1 ?_).2.1, ((invalid_definition_behaviour [fNode] "f" "c" "x" [] []
    false "s" []).2 ?_).2.1⟩
  · simp [find_function_node, initialTree, walkBFS_cons, walkBFS_nil,
      Stmt.children, Stmt.isFuncDefNamed, List.find?]
  · simp [find_function_node, fNode, walkBFS_cons, walkBFS_nil,
      Stmt.children, Stmt.isFuncDefNamed, List.find?]

theorem create_alreadyExists_iff_aux (tree : List Stmt) (n : String)
    (parsedCode : Option (List Stmt)) :
    create_tool_function tree n parsedCode =
        Except.error ToolError.alreadyExists ↔
      (find_function_node tree n).isSome = true := by
  by_cases hS : (find_function_node tree n).isSome = true
  · simp [create_tool_function, hS]
  · have hS' : (find_function_node tree n).isSome = false := by simpa using hS
    constructor
    · intro h
      exfalso
      rcases parsedCode with _ | (_ | ⟨head, rest⟩)
      · simp [create_tool_function, hS'] at h
      · simp [create_tool_function, hS'] at h
      · cases head with
        | funcDef a m s b =>
            by_cases hm : (m == n) = true
            · simp [create_tool_function, hS', hm] at h
            · have hm' : (m == n) = false := by simpa using hm
              simp [create_tool_function, hS', hm'] at h
        | other os oc => simp [create_tool_function, hS'] at h
    · intro h
      rw [hS'] at h
      cases h

/-- C4 counterexample: with the store holding only the imports and host —
whose body nests a definition of inner, while no top-level declaration is
named inner — create addressed at inner fails with AlreadyExists, because
find_function_node scans nested nodes via ast.walk.  This refutes the claim
that AlreadyExists occurs only if a top-level declaration named n exists. -/
theorem create_conflicts_with_nested :
    create_tool_function (initialTree ++ [hostNode]) "inner"
      (some [Stmt.funcDef false "inner" "def inner():\n    pass" []]) =
      Except.error ToolError.alreadyExists ∧
    (∀ x ∈ initialTree ++ [hostNode], x.isFuncDefNamed "inner" = false) := by
  constructor
  · simp [create_tool_function, find_function_node, initialTree, hostNode,
      walkBFS_cons, walkBFS_nil, Stmt.children, Stmt.isFuncDefNamed, List.find?]
  · decide

/-- C4, amended: create(n, code) fails with AlreadyExists exactly when a
function declaration named n occurs anywhere in the backing file — possibly
nested inside another declaration's body, since find_function_node walks the
whole tree — and on any create failure nothing is written, so the backing
file's previous content is kept byte-for-byte. -/
theorem create_already_exists_iff (tree : List Stmt) (n content : String)
    (parsedCode : Option (List Stmt)) :
    (create_tool_function tree n parsedCode =
        Except.error ToolError.alreadyExists ↔
      stmtsHaveFunc n tree = true) ∧
    (∀ e, create_tool_function tree n parsedCode = Except.error e →
      createTransition content tree n parsedCode = content) := by
  constructor
  · exact (create_alreadyExists_iff_aux tree n parsedCode).trans
      (find_function_node_isSome_iff tree n)
  · intro e he
    exact error_keeps_file_create content tree n parsedCode e he

/-- Witness for the amended C4 at a concrete input: the failing create leaves
the initial file content untouched. -/
theorem create_already_exists_iff_witness :
    createTransition initialFileContent (initialTree ++ [hostNode]) "inner"
      (some [Stmt.funcDef false "inner" "def inner():\n    pass" []]) =
      initialFileContent := by
  apply (create_already_exists_iff (initialTree ++ [hostNode]) "inner"
    initialFileContent _).2 ToolError.alreadyExists
  simp [create_tool_function, find_function_node, initialTree, hostNode,
    walkBFS_cons, walkBFS_nil, Stmt.children, Stmt.isFuncDefNamed, List.find?]

/-- C5 counterexample: update succeeds on source that parses to two
declarations — the declaration named add followed by an unrelated declaration
named g — storing only the first and silently dropping the second, which
refutes the claim that success requires D′ to parse to one function named n. -/
theorem update_accepts_two_declarations :
    update_tool_function [addNode] "add" "add" (some [addSubNode, gNode]) =
      Except.ok [addSubNode] := by
  simp [update_tool_function, find_function_node, addNode, addSubNode, gNode,
    walkBFS_cons, walkBFS_nil, Stmt.children, Stmt.isFuncDefNamed, List.find?,
    replaceFirstTopLevel]

/-- C5, amended: update(n, D′) (with matching path and body names) succeeds
exactly when some top-level declaration named n exists and D′ parses to a
nonempty module whose first statement is a function declaration named n — any
further parsed statements are ignored, so D′ need not parse to exactly one
declaration.  On success the first top-level declaration named n is replaced
in place by D′'s first declaration, every other top-level declaration keeps
its position, the top-level name sequence is unchanged, and read(n) returns
the new declaration's source. -/
theorem update_spec (tree : List Stmt) (n : String)
    (parsedCode : Option (List Stmt)) :
    ((∃ t', update_tool_function tree n n parsedCode = Except.ok t') ↔
      ((∃ a s b rest, parsedCode = some (Stmt.funcDef a n s b :: rest)) ∧
       (∃ x ∈ tree, x.isFuncDefNamed n = true))) ∧
    (∀ a s b rest pre old post,
      parsedCode = some (Stmt.funcDef a n s b :: rest) →
      tree = pre ++ old :: post →
      old.isFuncDefNamed n = true →
      (∀ x ∈ pre, x.isFuncDefNamed n = false) →
      update_tool_function tree n n parsedCode =
        Except.ok (pre ++ Stmt.funcDef a n s b :: post) ∧
      get_tool_function (pre ++ Stmt.funcDef a n s b :: post) n =
        Except.ok (n, s) ∧
      topLevelNames (pre ++ Stmt.funcDef a n s b :: post) =
        topLevelNames tree) := by
  constructor
  · constructor
    · rintro ⟨t', ht'⟩
      rcases update_ok_inversion tree n n parsedCode t' ht' with
        ⟨-, hN, a, s, b, rest, hparse, hrep⟩
      refine ⟨⟨a, s, b, rest, hparse⟩, ?_⟩
      have hrepS : (replaceFirstTopLevel tree n (Stmt.funcDef a n s b)).isSome
          = true := by
        rw [hrep]; rfl
      exact (replaceFirstTopLevel_isSome_iff tree n _).mp hrepS
    · rintro ⟨⟨a, s, b, rest, rfl⟩, x, hx, hnamed⟩
      have hN := find_isNone_false_of_haveFunc (stmtsHaveFunc_of_topLevel hx hnamed)
      have hrepS : (replaceFirstTopLevel tree n (Stmt.funcDef a n s b)).isSome
          = true :=
        (replaceFirstTopLevel_isSome_iff tree n _).mpr ⟨x, hx, hnamed⟩
      rcases Option.isSome_iff_exists.mp hrepS with ⟨newBody, hrep⟩
      exact ⟨newBody, by simp [update_tool_function, hN, hrep]⟩
  · intro a s b rest pre old post hparse htree hold hpre
    subst hparse
    subst htree
    have hN := find_isNone_false_of_haveFunc (stmtsHaveFunc_of_topLevel
      (List.mem_append_right pre (List.mem_cons_self old post)) hold)
    have hrep := replaceFirstTopLevel_of_decomp pre post old
      (Stmt.funcDef a n s b) n hold hpre
    have holdname : Stmt.funcName? old = some n := (funcName?_eq_some_iff old n).mpr hold
    refine ⟨by simp [update_tool_function, hN, hrep],
      get_tool_function_at pre post a n s b hpre, ?_⟩
    simp only [topLevelNames, List.filterMap_append, List.filterMap_cons, holdname]
    simp [Stmt.funcName?]

/-- Witness for the amended C5 at a concrete input: replacing def add in a
one-declaration store and reading the updated source back. -/
theorem update_spec_witness :
    update_tool_function [addNode] "add" "add" (some [addSubNode]) =
      Except.ok [addSubNode] ∧
    get_tool_function [addSubNode] "add" =
      Except.ok ("add", "def add(a, b):\n    return a - b") ∧
    topLevelNames [addSubNode] = topLevelNames [addNode] := by
  have h := (update_spec [addNode] "add" (some [addSubNode])).2 false
    "def add(a, b):\n    return a - b" [] [] [] addNode [] rfl rfl
    (by decide) (by simp)
  exact ⟨h.1, h.2.1, h.2.2⟩

/-- C6 counterexample: the store holds a top-level declaration dup and a
declaration keeper whose body nests another definition of dup (a state
reachable by two creates, since the uniqueness check does not inspect the
nested body of a submitted declaration).  delete(dup) succeeds and removes
the top-level dup, yet list() still contains dup and read(dup) still
succeeds, against the claim that after a successful delete(n) the name is
gone and read fails with NotFound. -/
theorem delete_leaves_reachable_name :
    create_tool_function initialTree "dup" (some [dupTopNode]) =
      Except.ok (initialTree ++ [dupTopNode]) ∧
    create_tool_function (initialTree ++ [dupTopNode]) "keeper"
      (some [keeperNode]) =
      Except.ok (initialTree ++ [dupTopNode, keeperNode]) ∧
    delete_tool_function (initialTree ++ [dupTopNode, keeperNode]) "dup" =
      Except.ok (initialTree ++ [keeperNode]) ∧
    "dup" ∈ list_tool_functions (initialTree ++ [keeperNode]) ∧
    get_tool_function (initialTree ++ [keeperNode]) "dup" =
      Except.ok ("dup", "def dup():\n    return 1") := by
  refine ⟨?_, ?_, ?_, ?_, ?_⟩
  · simp [create_tool_function, find_function_node, initialTree, dupTopNode,
      walkBFS_cons, walkBFS_nil, Stmt.children, Stmt.isFuncDefNamed, List.find?]
  · simp [create_tool_function, find_function_node, initialTree, dupTopNode,
      keeperNode, walkBFS_cons, walkBFS_nil, Stmt.children, Stmt.isFuncDefNamed,
      List.find?]
  · simp [delete_tool_function, initialTree, dupTopNode, keeperNode,
      Stmt.isFuncDefNamed]
  · simp [list_tool_functions, initialTree, keeperNode, walkBFS_cons,
      walkBFS_nil, Stmt.children, Stmt.funcName?]
  · have hf : find_function_node (initialTree ++ [keeperNode]) "dup" =
        some (Stmt.funcDef false "dup" "def dup():\n    return 1" []) := by
      simp [find_function_node, initialTree, keeperNode, walkBFS_cons,
        walkBFS_nil, Stmt.children, Stmt.isFuncDefNamed, List.find?]
    have hc : get_function_code (initialTree ++ [keeperNode]) "dup" =
        some "def dup():\n    return 1" := by
      simp [get_function_code, hf, Stmt.src]
    rw [get_tool_function, hc]

/-- C6, amended: delete(n) succeeds exactly when a top-level declaration
named n is present; a successful delete removes every top-level declaration
named n, the remaining declarations keep their relative order, and — provided
no nested function definition named n survives elsewhere in the file —
list() no longer contains n and read(n) fails with NotFound. -/
theorem delete_spec (tree : List Stmt) (n : String) :
    ((∃ t', delete_tool_function tree n = Except.ok t') ↔
      (∃ x ∈ tree, x.isFuncDefNamed n = true)) ∧
    (∀ t', delete_tool_function tree n = Except.ok t' →
      t'.Sublist tree ∧
      (∀ x ∈ t', x.isFuncDefNamed n = false) ∧
      (stmtsHaveFunc n t' = false →
        n ∉ list_tool_functions t' ∧
        get_tool_function t' n = Except.error ToolError.notFound)) := by
  have hsub : (tree.filter (fun node => !(node.isFuncDefNamed n))).Sublist tree :=
    List.filter_sublist tree
  constructor
  · constructor
    · rintro ⟨t', ht'⟩
      rcases delete_ok_inversion tree n t' ht' with ⟨-, hlen⟩
      by_contra hno
      push_neg at hno
      have hall : tree.filter (fun node => !(node.isFuncDefNamed n)) = tree := by
        apply List.filter_eq_self.mpr
        intro x hx
        have hx' := hno x hx
        simp only [Bool.not_eq_true] at hx'
        simp [hx']
      exact hlen (by rw [hall])
    · rintro ⟨x, hx, hnamed⟩
      refine ⟨tree.filter (fun node => !(node.isFuncDefNamed n)), ?_⟩
      have hlen :
          (tree.filter (fun node => !(node.isFuncDefNamed n))).length ≠
            tree.length := by
        intro heq
        have heqf := hsub.eq_of_length heq
        have hq := List.filter_eq_self.mp heqf x hx
        rw [hnamed] at hq
        simp at hq
      simp [delete_tool_function, hlen]
  · intro t' ht'
    rcases delete_ok_inversion tree n t' ht' with ⟨rfl, -⟩
    refine ⟨hsub, ?_, ?_⟩
    · intro x hx
      have hq := (List.mem_filter.mp hx).2
      simpa using hq
    · intro hsf
      refine ⟨?_, ?_⟩
      · intro hmem
        have hm := (mem_list_tool_functions_iff_aux _ n).mp hmem
        rw [hsf] at hm
        cases hm
      · have hfind := find_none_of_not_haveFunc hsf
        simp [get_tool_function, get_function_code, hfind]

/-- Witness for the amended C6 at a concrete input: deleting the only
declaration empties the store, after which list() and read() reflect the
absence. -/
theorem delete_spec_witness :
    List.Sublist ([] : List Stmt) [fNode] ∧
    (∀ x ∈ ([] : List Stmt), x.isFuncDefNamed "f" = false) ∧
    ("f" ∉ list_tool_functions [] ∧
      get_tool_function [] "f" = Except.error ToolError.notFound) := by
  have h := (delete_spec [fNode] "f").2 []
    (by simp [delete_tool_function, fNode, Stmt.isFuncDefNamed])
  exact ⟨h.1, h.2.1, h.2.2 (by simp [stmtsHaveFunc, forestStmts])⟩

/-- C7: submitting source whose first parsed declaration is a function whose
internal name m differs from the addressed name n fails with NameMismatch and
leaves the backing file unchanged — for create whenever the addressed name is
still free (a taken name is preempted by the AlreadyExists check, which runs
first), and for update whenever the addressed name is found (an absent name
is preempted by the NotFound check). -/
theorem name_mismatch_spec (tree : List Stmt) (n content : String) (a : Bool)
    (m s : String) (b rest : List Stmt) (hmn : m ≠ n) :
    (find_function_node tree n = none →
      create_tool_function tree n (some (Stmt.funcDef a m s b :: rest)) =
        Except.error ToolError.nameMismatch ∧
      createTransition content tree n (some (Stmt.funcDef a m s b :: rest)) =
        content) ∧
    ((find_function_node tree n).isNone = false →
      update_tool_function tree n n (some (Stmt.funcDef a m s b :: rest)) =
        Except.error ToolError.nameMismatch ∧
      updateTransition content tree n n (some (Stmt.funcDef a m s b :: rest)) =
        content) := by
  have hm : (m == n) = false := by
    simp [hmn]
  constructor
  · intro hfind
    have hS : (find_function_node tree n).isSome = false := by rw [hfind]; rfl
    have hc : create_tool_function tree n (some (Stmt.funcDef a m s b :: rest)) =
        Except.error ToolError.nameMismatch := by
      simp [create_tool_function, hS, hm]
    exact ⟨hc, error_keeps_file_create content tree n _ _ hc⟩
  · intro hN
    have hu : update_tool_function tree n n (some (Stmt.funcDef a m s b :: rest)) =
        Except.error ToolError.nameMismatch := by
      simp [update_tool_function, hN, hm]
    exact ⟨hu, error_keeps_file_update content tree n n _ _ hu⟩

/-- Witness for C7 at concrete inputs: addressing name f with a declaration
of g is rejected by both endpoints. -/
theorem name_mismatch_spec_witness :
    create_tool_function initialTree "f"
      (some [Stmt.funcDef false "g" "def g():\n    pass" []]) =
      Except.error ToolError.nameMismatch ∧
    update_tool_function [fNode] "f" "f"
      (some [Stmt.funcDef false "g" "def g():\n    pass" []]) =
      Except.error ToolError.nameMismatch := by
  refine ⟨((name_mismatch_spec initialTree "f" "c" false "g" "def g():\n    pass"
    [] [] (by decide)).1 ?_).1, ((name_mismatch_spec [fNode] "f" "c" false "g"
    "def g():\n    pass" [] [] (by decide)).2 ?_).1⟩
  · simp [find_function_node, initialTree, walkBFS_cons, walkBFS_nil,
      Stmt.children, Stmt.isFuncDefNamed, List.find?]
  · simp [find_function_node, fNode, walkBFS_cons, walkBFS_nil,
      Stmt.children, Stmt.isFuncDefNamed, List.find?]

/-- C8: the invariant that at most one top-level function declaration exists
with any given name is preserved by every successful create, update and
delete starting from a store satisfying it. -/
theorem crud_preserve_unique_names (tree t' : List Stmt) (n bodyName : String)
    (parsedCode : Option (List Stmt)) (hinv : uniqueTopLevelNames tree) :
    (create_tool_function tree n parsedCode = Except.ok t' →
      uniqueTopLevelNames t') ∧
    (update_tool_function tree n bodyName parsedCode = Except.ok t' →
      uniqueTopLevelNames t') ∧
    (delete_tool_function tree n = Except.ok t' →
      uniqueTopLevelNames t') := by
  refine ⟨?_, ?_, ?_⟩
  · intro h
    rcases create_ok_inversion tree n parsedCode t' h with
      ⟨hS, a, s, b, rest, -, rfl⟩
    have hnot : n ∉ topLevelNames tree :=
      not_mem_topLevelNames (haveFunc_false_of_find_isSome_false hS)
    rw [uniqueTopLevelNames, topLevelNames, List.filterMap_append]
    have hone : List.filterMap Stmt.funcName? [Stmt.funcDef a n s b] = [n] := by
      simp [Stmt.funcName?]
    rw [hone, List.nodup_append]
    refine ⟨hinv, List.nodup_singleton n, ?_⟩
    intro y hy hy'
    rw [List.mem_singleton] at hy'
    subst hy'
    exact hnot hy
  · intro h
    rcases update_ok_inversion tree n bodyName parsedCode t' h with
      ⟨-, -, a, s, b, rest, -, hrep⟩
    have hnames := replaceFirstTopLevel_names tree t' n a s b hrep
    rw [uniqueTopLevelNames, hnames]
    exact hinv
  · intro h
    rcases delete_ok_inversion tree n t' h with ⟨rfl, -⟩
    exact hinv.sublist ((List.filter_sublist tree).filterMap Stmt.funcName?)

/-- Witness for C8 at a concrete input: creating f on the initial store keeps
the top-level names duplicate-free. -/
theorem crud_preserve_unique_names_witness :
    uniqueTopLevelNames (initialTree ++ [fNode]) := by
  refine (crud_preserve_unique_names initialTree (initialTree ++ [fNode]) "f" "f"
    (some [fNode]) ?_).1 ?_
  · simp [uniqueTopLevelNames, topLevelNames, initialTree, Stmt.funcName?]
  · simp [create_tool_function, find_function_node, initialTree, fNode,
      walkBFS_cons, walkBFS_nil, Stmt.children, Stmt.isFuncDefNamed, List.find?]

theorem ok_writes_file_create (content : String) (tree : List Stmt)
    (n : String) (parsedCode : Option (List Stmt)) (newTree : List Stmt)
    (h : create_tool_function tree n parsedCode = Except.ok newTree) :
    createTransition content tree n parsedCode =
      write_global_tools_ast newTree := by
  simp [createTransition, h]

theorem takeWhile_append_all (p : Stmt → Bool) (P L : List Stmt)
    (hP : ∀ x ∈ P, p x = true) :
    (P ++ L).takeWhile p = P ++ L.takeWhile p := by
  induction P with
  | nil => simp
  | cons st rest ih =>
      rw [List.cons_append, List.takeWhile_cons, hP st (List.mem_cons_self st rest)]
      simp [ih (fun x hx => hP x (List.mem_cons_of_mem st hx))]

/-- C9 counterexample: the very first successful create rewrites the backing
file without the leading comment line that the startup code itself wrote —
ast.parse drops comments, so the rewritten file starts with the first import
instead of the original comment byte.  The preamble is therefore not
preserved verbatim byte for byte. -/
theorem preamble_comment_dropped :
    createTransition initialFileContent initialTree "f" (some [fNode]) =
      "import datetime\nfrom zoneinfo import ZoneInfo\n\ndef f():\n    pass\n" ∧
    initialFileContent.data.head? = some '#' ∧
    ("import datetime\nfrom zoneinfo import ZoneInfo\n\ndef f():\n    pass\n").data.head? =
      some 'i' := by
  refine ⟨?_, by decide, by decide⟩
  have hok : create_tool_function initialTree "f" (some [fNode]) =
      Except.ok (initialTree ++ [fNode]) := by
    simp [create_tool_function, find_function_node, initialTree, fNode,
      walkBFS_cons, walkBFS_nil, Stmt.children, Stmt.isFuncDefNamed, List.find?]
  rw [ok_writes_file_create initialFileContent initialTree "f" (some [fNode])
    (initialTree ++ [fNode]) hok]
  decide

/-- C9, amended: what every successful mutation preserves is the preamble at
the level of parsed statements, not bytes: the leading run of non-declaration
statements (the imports) is kept unchanged — and in its original order and
rendering — by create and update, and is kept as a prefix of the new leading
run by delete; comments and blank lines, which never enter the AST, are lost
at the first rewrite, so preservation is semantic rather than byte-for-byte. -/
theorem preamble_nodes_preserved (tree t' : List Stmt) (n bodyName : String)
    (parsedCode : Option (List Stmt)) :
    (create_tool_function tree n parsedCode = Except.ok t' →
      modulePreamble t' = modulePreamble tree) ∧
    (update_tool_function tree n bodyName parsedCode = Except.ok t' →
      modulePreamble t' = modulePreamble tree) ∧
    (delete_tool_function tree n = Except.ok t' →
      modulePreamble tree <+: modulePreamble t') := by
  refine ⟨?_, ?_, ?_⟩
  · intro h
    rcases create_ok_inversion tree n parsedCode t' h with
      ⟨-, a, sc, b, rest, -, rfl⟩
    simp only [modulePreamble]
    exact takeWhile_append_mid _ tree [] _ (by simp [Stmt.isFuncDef])
  · intro h
    rcases update_ok_inversion tree n bodyName parsedCode t' h with
      ⟨-, -, a, sc, b, rest, -, hrep⟩
    rcases replaceFirstTopLevel_decomp tree n _ t' hrep with
      ⟨pre, old, post, rfl, hold, -, rfl⟩
    have hpold : (fun st => !st.isFuncDef) old = false := by
      cases old with
      | funcDef a' m' s' b' => simp [Stmt.isFuncDef]
      | other s' b' => simp [Stmt.isFuncDefNamed] at hold
    simp only [modulePreamble]
    rw [takeWhile_append_mid _ pre post _ (by simp [Stmt.isFuncDef]),
      takeWhile_append_mid _ pre post _ hpold]
  · intro h
    rcases delete_ok_inversion tree n t' h with ⟨rfl, -⟩
    have hsplit := List.takeWhile_append_dropWhile
      (p := fun st => !st.isFuncDef) (l := tree)
    have hPq : ∀ x ∈ tree.takeWhile (fun st => !st.isFuncDef),
        (!(x.isFuncDefNamed n)) = true := by
      intro x hx
      have hp := List.mem_takeWhile_imp hx
      cases x with
      | funcDef a' m' s' b' => simp [Stmt.isFuncDef] at hp
      | other s' b' => simp [Stmt.isFuncDefNamed]
    have hfilter :
        tree.filter (fun node => !(node.isFuncDefNamed n)) =
          tree.takeWhile (fun st => !st.isFuncDef) ++
          (tree.dropWhile (fun st => !st.isFuncDef)).filter
            (fun node => !(node.isFuncDefNamed n)) := by
      conv_lhs => rw [← hsplit]
      rw [List.filter_append]
      congr 1
      exact List.filter_eq_self.mpr hPq
    simp only [modulePreamble]
    rw [hfilter, takeWhile_append_all _ _ _
      (fun x hx => List.mem_takeWhile_imp hx)]
    exact ⟨_, rfl⟩

/-- Witness for the amended C9 at a concrete input: creating f on the initial
store keeps both import statements as the leading non-declaration run. -/
theorem preamble_nodes_preserved_witness :
    modulePreamble (initialTree ++ [fNode]) = modulePreamble initialTree :=
  (preamble_nodes_preserved initialTree (initialTree ++ [fNode]) "f" "f"
    (some [fNode])).1
    (by simp [create_tool_function, find_function_node, initialTree, fNode,
      walkBFS_cons, walkBFS_nil, Stmt.children, Stmt.isFuncDefNamed, List.find?])

theorem mem_stripUnderscores {c : Char} {l : List Char}
    (h : c ∈ stripUnderscores l) : c ∈ l := by
  rw [stripUnderscores, List.mem_reverse] at h
  have h2 : c ∈ (l.dropWhile (fun d => d == '_')).reverse :=
    (List.dropWhile_sublist _).subset h
  rw [List.mem_reverse] at h2
  exact (List.dropWhile_sublist _).subset h2

theorem isPyIdentifier_of_wordChars (c : Char) (rest : List Char)
    (hc : isWordChar c = true) (hrest : ∀ x ∈ rest, isWordChar x = true) :
    isPyIdentifier
      (if isAsciiDigit c then '_' :: c :: rest else c :: rest) = true := by
  have hcont : ∀ x ∈ c :: rest,
      (isAsciiAlpha x || isAsciiDigit x || x == '_') = true := by
    intro x hx
    rcases List.mem_cons.mp hx with rfl | hx
    · exact hc
    · exact hrest x hx
  by_cases hd : isAsciiDigit c = true
  · rw [if_pos hd]
    simp only [isPyIdentifier, List.all_eq_true, Bool.and_eq_true]
    exact ⟨by decide, hcont⟩
  · have hd' : isAsciiDigit c = false := by
      cases hv : isAsciiDigit c
      · rfl
      · exact absurd hv hd
    rw [if_neg hd]
    simp only [isPyIdentifier, List.all_eq_true, Bool.and_eq_true]
    constructor
    · have hw := hc
      simp only [isWordChar] at hw
      rw [hd'] at hw
      cases ha : isAsciiAlpha c <;> cases hu : (c == '_') <;> simp_all
    · exact fun x hx => hcont x (List.mem_cons_of_mem c hx)

theorem sanitize_cases (name : String) :
    (∃ s4, sanitize_agent_name name = Except.ok (String.mk s4) ∧
      s4 ≠ [] ∧ isPyIdentifier s4 = true) ∨
    sanitize_agent_name name =
      Except.error SanitizeError.emptyAfterSanitization := by
  simp only [sanitize_agent_name]
  have hMword : ∀ x ∈ (name.data.map (fun c =>
        if c == ' ' then '_' else if c == '-' then '_' else c)).filter isWordChar,
      isWordChar x = true :=
    fun x hx => (List.mem_filter.mp hx).2
  cases hL : stripUnderscores ((name.data.map (fun c =>
      if c == ' ' then '_' else if c == '-' then '_' else c)).filter isWordChar) with
  | nil =>
      simp
  | cons c rest =>
      have hmem : ∀ x ∈ c :: rest, isWordChar x = true := by
        intro x hx
        refine hMword x (mem_stripUnderscores ?_)
        rw [hL]
        exact hx
      have hid := isPyIdentifier_of_wordChars c rest
        (hmem c (List.mem_cons_self c rest))
        (fun x hx => hmem x (List.mem_cons_of_mem c hx))
      have hne : (if isAsciiDigit c then '_' :: c :: rest else c :: rest) ≠ [] := by
        cases hv : isAsciiDigit c <;> simp
      left
      refine ⟨if isAsciiDigit c then '_' :: c :: rest else c :: rest, ?_, hne, hid⟩
      have hempty :
          (if isAsciiDigit c then '_' :: c :: rest else c :: rest).isEmpty = false := by
        cases hv : isAsciiDigit c <;> simp
      simp [hempty, hid]

/-- C10: sanitize_agent_name either raises a ValueError or returns a nonempty
string that is a valid Python identifier.  Moreover the defensive final
isidentifier check of main.py line 49 is unreachable — the error it guards is
never returned — and the AgentConfig name validator, which simply returns
sanitize_agent_name of the submitted value, therefore only accepts valid
identifiers. -/
theorem sanitize_agent_name_spec (name : String) :
    (∀ s, sanitize_agent_name name = Except.ok s →
      s.data ≠ [] ∧ isPyIdentifier s.data = true) ∧
    sanitize_agent_name name ≠ Except.error SanitizeError.notAnIdentifier ∧
    (∀ s, validate_and_sanitize_name name = Except.ok s →
      isPyIdentifier s.data = true) := by
  rcases sanitize_cases name with ⟨s4, hok, hne, hid⟩ | herr
  · refine ⟨?_, ?_, ?_⟩
    · intro s hs
      rw [hok] at hs
      cases hs
      exact ⟨hne, hid⟩
    · rw [hok]
      intro hcon
      cases hcon
    · intro s hs
      rw [validate_and_sanitize_name, hok] at hs
      cases hs
      exact hid
  · refine ⟨?_, ?_, ?_⟩
    · intro s hs
      rw [herr] at hs
      cases hs
    · rw [herr]
      intro hcon
      injection hcon with hcon2
      cases hcon2
    · intro s hs
      rw [validate_and_sanitize_name, herr] at hs
      cases hs

/-- Witness for C10 at a concrete input: the name 9 lives sanitizes to the
valid identifier prefixed with an underscore. -/
theorem sanitize_agent_name_spec_witness :
    ("_9_lives" : String).data ≠ [] ∧
    isPyIdentifier ("_9_lives" : String).data = true :=
  (sanitize_agent_name_spec "9 lives").1 "_9_lives" rfl
